import Mathlib

/-!
# Verification of the `tablespanner` layout engine

Shallow embedding of the Rust sources of `jcdyer/tablespanner`:

* `src/engine.rs` — the primary engine: `Span`, `RowSpanTracker`
  (a `HashMap<usize, usize>` from column index to remaining row count),
  `cell_fits`, and `layout_table` with trailing-row emission.
* `src/lib.rs` — an older inline `mod engine` with an identical `Span` and an
  identical tracker struct (named `ActiveRowSpans`, without `max_spanned`),
  whose `layout_table` checks only the single cursor column (no
  `cell_fits` look-ahead) and emits no trailing rows.

The `HashMap<usize, usize>` is embedded as an association list
`List (Nat × Nat)`; `insert` is modelled as "remove the old binding, cons the
new one", which has the same lookup behaviour, and all iteration in the source
(`dec`, `keys().max()`) is order-insensitive, so the embedding is faithful.
The two `while` loops of the engines are embedded with an explicit iteration
bound (the loops stop at the latest one column past the largest tracked
column index); the defining `while`-step equations are proved below
(`fillBlocked_unfold`, `fillSpanned_unfold`, `trailing_unfold`).
-/

namespace TableSpanner

/-- `engine.rs` / `lib.rs`: `struct Span { rows: usize, cols: usize }`. -/
structure Span where
  rows : Nat
  cols : Nat
deriving DecidableEq

/-- `Span::new` (`engine.rs` lines 21–28): panics (modelled as `Except.error`)
when either dimension is zero, otherwise stores exactly the two dimensions.
The inline module of `lib.rs` (lines 22–29) has the same constructor with the
same zero checks. -/
def Span.new (rows cols : Nat) : Except String Span :=
  if rows = 0 then
    Except.error "Error constructing Span. Zero value provided for Span.rows."
  else if cols = 0 then
    Except.error "Error constructing Span. Zero value provided for Span.cols."
  else
    Except.ok { rows := rows, cols := cols }

/-- `impl Default for Span`: `Span::new(1, 1)`, whose zero checks never fire. -/
def Span.default : Span := { rows := 1, cols := 1 }

/-- `lib.rs`: `Span::from_pair((rows, cols))`. -/
def Span.from_pair (pair : Nat × Nat) : Except String Span :=
  Span.new pair.1 pair.2

/-- `engine.rs`: `struct RowSpanTracker(HashMap<usize, usize>)`, mapping a
column index to the remaining row count of an active rowspan.  `lib.rs`'s
`ActiveRowSpans` is the identical struct (minus `max_spanned`), so both
engines below share this embedding. -/
abbrev RowSpanTracker := List (Nat × Nat)

namespace RowSpanTracker

/-- `RowSpanTracker::new()`: the empty map. -/
def new : RowSpanTracker := []

/-- `track`: `if row_count > 1 { self.0.insert(col_index, row_count); }`.
`HashMap::insert` overwrites, embedded as removing any old binding for the
key and consing the new one. -/
def track (t : RowSpanTracker) (col_index row_count : Nat) : RowSpanTracker :=
  if 1 < row_count then
    (col_index, row_count) :: t.filter (fun p => decide (p.1 ≠ col_index))
  else t

/-- `dec`: every entry with value `> 1` is decremented, every other entry is
removed.  The source iterates a snapshot of the keys; the result is
key-by-key, hence order-insensitive, and `filterMap` computes it. -/
def dec (t : RowSpanTracker) : RowSpanTracker :=
  t.filterMap (fun p => if 1 < p.2 then some (p.1, p.2 - 1) else none)

/-- `spanned`: `self.0.get(&col_index).unwrap_or(&0) > &0`. -/
def spanned (t : RowSpanTracker) (col_index : Nat) : Bool :=
  decide (0 < (t.lookup col_index).getD 0)

/-- `max_spanned` (`engine.rs` only): `self.0.keys().max().cloned()`. -/
def max_spanned (t : RowSpanTracker) : Option Nat :=
  t.foldr (fun p acc => match acc with
    | none => some p.1
    | some m => some (max p.1 m)) none

/-- Upper bound on the tracked column indices (0 when none are tracked);
used only as the iteration bound of the `while` loops below. -/
def maxKey (t : RowSpanTracker) : Nat :=
  t.foldr (fun p m => max p.1 m) 0

/-- Termination measure for the trailing-row loop: each `dec` strictly
decreases it while the tracker is nonempty. -/
def weight (t : RowSpanTracker) : Nat :=
  t.foldr (fun p acc => p.2 + 1 + acc) 0

/-- Every entry of the tracker holds a remaining row count of at least 1. -/
def Pos (t : RowSpanTracker) : Prop := ∀ p ∈ t, 1 ≤ p.2

/-- Every entry's remaining row count is at most `r`. -/
def Bounded (t : RowSpanTracker) (r : Nat) : Prop := ∀ p ∈ t, p.2 ≤ r

/-- Tracker states reachable from the empty tracker by any sequence of
`track` and `dec` (= `advance`) operations. -/
inductive Reachable : RowSpanTracker → Prop
  | new : Reachable new
  | track (t : RowSpanTracker) (c n : Nat) : Reachable t → Reachable (track t c n)
  | dec (t : RowSpanTracker) : Reachable t → Reachable (dec t)

end RowSpanTracker

namespace Engine

/-- `engine.rs` `cell_fits`: the cell of width `col_count` fits at column
`col` iff none of the columns `col, …, col + col_count - 1` is spanned. -/
def cell_fits (col col_count : Nat) (active_row_spans : RowSpanTracker) : Bool :=
  (List.range' col col_count).all (fun peek => !active_row_spans.spanned peek)

variable {T : Type}

/-- Bounded runner for the loop
`while !cell_fits(row.len(), span.cols, &active_row_spans) { row.push(None) }`
of `engine.rs::layout_table`.  Once `row.len()` passes every tracked column
the cell fits, so `maxKey + 1 - row.length` iterations always suffice;
`fillBlocked_unfold` below recovers the exact `while` semantics. -/
def fillBlockedGo (t : RowSpanTracker) (col_count : Nat) :
    Nat → List (Option T) → List (Option T)
  | 0, row => row
  | fuel + 1, row =>
    if cell_fits row.length col_count t then row
    else fillBlockedGo t col_count fuel (row ++ [none])

/-- The `while !cell_fits` loop of `engine.rs::layout_table`. -/
def fillBlocked (t : RowSpanTracker) (col_count : Nat) (row : List (Option T)) :
    List (Option T) :=
  fillBlockedGo t col_count (t.maxKey + 1 - row.length) row

/-- The loop `for _ in 1..span.cols { track(row.len(), rows); row.push(None) }`
shared verbatim by both engines; `k` is the remaining iteration count
(`span.cols - 1` at the call site). -/
def spanTail (row_count : Nat) :
    Nat → RowSpanTracker → List (Option T) → RowSpanTracker × List (Option T)
  | 0, t, row => (t, row)
  | k + 1, t, row => spanTail row_count k (t.track row.length row_count) (row ++ [none])

/-- Body of the `for cell in inrow.iter()` loop of `engine.rs::layout_table`:
displace past blocked columns, track the anchor column, write the anchor,
then track and blank the remaining `span.cols - 1` columns. -/
def layoutCell (spaninfo : T → Option Span)
    (acc : RowSpanTracker × List (Option T)) (cell : T) :
    RowSpanTracker × List (Option T) :=
  let span := (spaninfo cell).getD Span.default
  let row := fillBlocked acc.1 span.cols acc.2
  let t := acc.1.track row.length span.rows
  spanTail span.rows (span.cols - 1) t (row ++ [some cell])

/-- One input row of `engine.rs::layout_table`: the row buffer starts empty
and each cell is processed in order. -/
def layoutRow (spaninfo : T → Option Span) (t : RowSpanTracker) (inrow : List T) :
    RowSpanTracker × List (Option T) :=
  inrow.foldl (layoutCell spaninfo) (t, [])

/-- The `for inrow in data` loop of `engine.rs::layout_table`: after each
completed row the tracker is decremented once.  Returns the final tracker
together with the emitted rows. -/
def layoutRows (spaninfo : T → Option Span) :
    RowSpanTracker → List (List T) → RowSpanTracker × List (List (Option T))
  | t, [] => (t, [])
  | t, inrow :: rest =>
    let step := layoutRow spaninfo t inrow
    let next := layoutRows spaninfo step.1.dec rest
    (next.1, step.2 :: next.2)

/-- Bounded runner for the trailing loop
`while let Some(col) = active_row_spans.max_spanned() { table.push(vec![None; col + 1]); active_row_spans.dec(); }`;
`weight` strictly decreases at each `dec` of a nonempty tracker, so
`weight t` iterations always suffice (`trailing_unfold` below). -/
def trailingGo : Nat → RowSpanTracker → List (List (Option T))
  | 0, _ => []
  | fuel + 1, t =>
    match t.max_spanned with
    | none => []
    | some col => (List.replicate (col + 1) (none : Option T)) :: trailingGo fuel t.dec

/-- The trailing-row loop of `engine.rs::layout_table` (lines 149–153). -/
def trailing (t : RowSpanTracker) : List (List (Option T)) :=
  trailingGo t.weight t

/-- `engine.rs::layout_table`. -/
def layout_table (spaninfo : T → Option Span) (data : List (List T)) :
    List (List (Option T)) :=
  let run := layoutRows spaninfo RowSpanTracker.new data
  run.2 ++ trailing run.1

end Engine

namespace LibEngine

variable {T : Type}

/-- Bounded runner for the loop
`while active_row_spans.spanned(col) { row.push(None); col += 1; }` of
`lib.rs::engine::layout_table`; the cursor `col` always equals `row.len()`. -/
def fillSpannedGo (t : RowSpanTracker) : Nat → List (Option T) → List (Option T)
  | 0, row => row
  | fuel + 1, row =>
    if t.spanned row.length then fillSpannedGo t fuel (row ++ [none])
    else row

/-- The `while spanned(col)` loop of `lib.rs::engine::layout_table`: unlike
`engine.rs`, only the single cursor column is checked. -/
def fillSpanned (t : RowSpanTracker) (row : List (Option T)) : List (Option T) :=
  fillSpannedGo t (t.maxKey + 1 - row.length) row

/-- Body of the `for cell in inrow.iter()` loop of
`lib.rs::engine::layout_table`: skip spanned columns one at a time, write the
anchor, track its column, then track and blank the remaining columns (the
tail loop is the same code as in `engine.rs`, reused as `Engine.spanTail`). -/
def layoutCell (spaninfo : T → Option Span)
    (acc : RowSpanTracker × List (Option T)) (cell : T) :
    RowSpanTracker × List (Option T) :=
  let row := fillSpanned acc.1 acc.2
  let span := (spaninfo cell).getD Span.default
  let t := acc.1.track row.length span.rows
  Engine.spanTail span.rows (span.cols - 1) t (row ++ [some cell])

/-- One input row of `lib.rs::engine::layout_table`. -/
def layoutRow (spaninfo : T → Option Span) (t : RowSpanTracker) (inrow : List T) :
    RowSpanTracker × List (Option T) :=
  inrow.foldl (layoutCell spaninfo) (t, [])

/-- The row loop of `lib.rs::engine::layout_table` with the per-row `dec`. -/
def layoutRows (spaninfo : T → Option Span) :
    RowSpanTracker → List (List T) → RowSpanTracker × List (List (Option T))
  | t, [] => (t, [])
  | t, inrow :: rest =>
    let step := layoutRow spaninfo t inrow
    let next := layoutRows spaninfo step.1.dec rest
    (next.1, step.2 :: next.2)

/-- `lib.rs::engine::layout_table` (lines 87–131): no trailing rows. -/
def layout_table (spaninfo : T → Option Span) (data : List (List T)) :
    List (List (Option T)) :=
  (layoutRows spaninfo RowSpanTracker.new data).2

end LibEngine

/-! ## The spec's test scenarios (spec §8) -/

/-- Span table of Scenario A: `{}`. -/
def spansA : String → Option Span := fun _ => none

/-- Input table of Scenario A. -/
def dataA : List (List String) := [["A", "B", "C"], ["D", "E", "F"]]

/-- Span table of Scenario B: `{"D":[1,2]}`. -/
def spansB : String → Option Span := fun s =>
  if s = "D" then some { rows := 1, cols := 2 } else none

/-- Input table of Scenario B. -/
def dataB : List (List String) := [["A", "B", "C"], ["D", "E"], ["G", "H", "I"]]

/-- Span table of Scenario C: `{"E":[2,1]}`. -/
def spansC : String → Option Span := fun s =>
  if s = "E" then some { rows := 2, cols := 1 } else none

/-- Input table of Scenario C. -/
def dataC : List (List String) :=
  [["A", "B", "C"], ["D", "E", "F"], ["G", "H"], ["J", "K", "L"]]

/-- Span table of Scenario D: `{"B":[3,1],"C":[2,1]}`. -/
def spansD : String → Option Span := fun s =>
  if s = "B" then some { rows := 3, cols := 1 }
  else if s = "C" then some { rows := 2, cols := 1 }
  else none

/-- Input table of Scenario D. -/
def dataD : List (List String) := [["A", "B", "C"]]

/-- Span table of Scenario E: `{"E":[2,1],"G":[2,2]}`. -/
def spansE : String → Option Span := fun s =>
  if s = "E" then some { rows := 2, cols := 1 }
  else if s = "G" then some { rows := 2, cols := 2 }
  else none

/-- Input table of Scenario E (the five anchor rows of
`engine.rs::tests::rowspan_blocking_colspans`). -/
def dataE : List (List String) :=
  [["A", "B", "C"], ["D", "E", "F"], ["G", "H", "I"], ["J", "K", "L"],
   ["M", "N", "O"]]

/-- Span table of `lib.rs::engine::tests::test_blocked_col_spans`:
`{"E":[2,1],"G":[1,2]}`. -/
def spansLibTest : String → Option Span := fun s =>
  if s = "E" then some { rows := 2, cols := 1 }
  else if s = "G" then some { rows := 1, cols := 2 } else none

/-- Expected output hard-coded in `lib.rs::engine::tests::test_blocked_col_spans`. -/
def expectedLibTest : List (List (Option String)) :=
  [[some "A", some "B", some "C"],
   [some "D", some "E", some "F"],
   [none, none, some "G", some "H", some "I"],
   [some "J", some "K", none, some "L"],
   [some "M", some "N", some "O"]]

/-- Span table `{"B":[2,1]}`, used to exhibit a blocked column in a row with
no anchors. -/
def spansRowless : String → Option Span := fun s =>
  if s = "B" then some { rows := 2, cols := 1 } else none

/-- Input whose second row has no anchors while column 1 is still blocked by
`B`'s rowspan. -/
def dataRowless : List (List String) := [["A", "B"], []]

/-! ## Tracker lemmas -/

namespace RowSpanTracker

theorem lookup_some_mem {t : RowSpanTracker} {c v : Nat}
    (h : t.lookup c = some v) : (c, v) ∈ t := by
  induction t with
  | nil => simp [List.lookup] at h
  | cons p rest ih =>
    rw [List.lookup_cons] at h
    by_cases hc : c = p.1
    · simp [hc] at h
      refine List.mem_cons.mpr (Or.inl ?_)
      rw [hc, ← h]
    · have hb : (c == p.1) = false := beq_eq_false_iff_ne.mpr hc
      simp [hb] at h
      exact List.mem_cons_of_mem _ (ih h)

theorem le_maxKey_of_mem {t : RowSpanTracker} {c v : Nat}
    (h : (c, v) ∈ t) : c ≤ t.maxKey := by
  induction t with
  | nil => simp at h
  | cons p rest ih =>
    rcases List.mem_cons.mp h with h | h
    · subst h
      exact le_max_left _ _
    · exact (ih h).trans (le_max_right _ _)

theorem spanned_false_of_maxKey_lt {t : RowSpanTracker} {c : Nat}
    (h : t.maxKey < c) : t.spanned c = false := by
  unfold spanned
  cases hl : t.lookup c with
  | none => simp
  | some v =>
    exact absurd (le_maxKey_of_mem (lookup_some_mem hl)) (by omega)

theorem spanned_true_elim {t : RowSpanTracker} {c : Nat}
    (h : t.spanned c = true) : ∃ v, t.lookup c = some v ∧ 0 < v := by
  unfold spanned at h
  cases hl : t.lookup c with
  | none => rw [hl] at h; simp at h
  | some v => rw [hl] at h; simp at h; exact ⟨v, rfl, h⟩

theorem le_maxKey_of_spanned {t : RowSpanTracker} {c : Nat}
    (h : t.spanned c = true) : c ≤ t.maxKey := by
  obtain ⟨v, hl, _⟩ := spanned_true_elim h
  exact le_maxKey_of_mem (lookup_some_mem hl)

end RowSpanTracker

/-! ## Engine loop lemmas -/

namespace Engine

variable {T : Type}

theorem cell_fits_of_maxKey_lt {t : RowSpanTracker} {col cc : Nat}
    (h : t.maxKey < col) : cell_fits col cc t = true := by
  unfold cell_fits
  rw [List.all_eq_true]
  intro peek hpeek
  have hcol : col ≤ peek := (List.mem_range'_1.mp hpeek).1
  simp [RowSpanTracker.spanned_false_of_maxKey_lt (lt_of_lt_of_le h hcol)]

theorem le_maxKey_of_not_cell_fits {t : RowSpanTracker} {col cc : Nat}
    (h : cell_fits col cc t = false) : col ≤ t.maxKey := by
  unfold cell_fits at h
  rw [List.all_eq_false] at h
  obtain ⟨peek, hpeek, hsp⟩ := h
  have hsp : t.spanned peek = true := by
    cases hb : t.spanned peek with
    | false => rw [hb] at hsp; simp at hsp
    | true => rfl
  exact (List.mem_range'_1.mp hpeek).1.trans (RowSpanTracker.le_maxKey_of_spanned hsp)

/-- The defining `while`-step equation of the `while !cell_fits` loop. -/
theorem fillBlocked_unfold (t : RowSpanTracker) (cc : Nat) (row : List (Option T)) :
    fillBlocked t cc row =
      if cell_fits row.length cc t then row else fillBlocked t cc (row ++ [none]) := by
  unfold fillBlocked
  cases hb : t.maxKey + 1 - row.length with
  | zero =>
    have hfit : cell_fits row.length cc t = true := cell_fits_of_maxKey_lt (by omega)
    rw [hfit, if_pos rfl]
    rfl
  | succ b =>
    show (if cell_fits row.length cc t then row
          else fillBlockedGo t cc b (row ++ [none])) = _
    by_cases hfit : cell_fits row.length cc t
    · rw [if_pos hfit, if_pos hfit]
    · rw [if_neg hfit, if_neg hfit]
      have : t.maxKey + 1 - (row ++ [none]).length = b := by
        simp only [List.length_append, List.length_cons, List.length_nil]
        omega
      rw [this]

theorem fillBlockedGo_append (t : RowSpanTracker) (cc : Nat) :
    ∀ (fuel : Nat) (row : List (Option T)),
      ∃ k, fillBlockedGo t cc fuel row = row ++ List.replicate k (none : Option T) := by
  intro fuel
  induction fuel with
  | zero => exact fun row => ⟨0, by simp [fillBlockedGo]⟩
  | succ fuel ih =>
    intro row
    by_cases hfit : cell_fits row.length cc t
    · exact ⟨0, by simp [fillBlockedGo, hfit]⟩
    · obtain ⟨k, hk⟩ := ih (row ++ [none])
      refine ⟨k + 1, ?_⟩
      simp only [fillBlockedGo, if_neg hfit]
      rw [hk, List.append_assoc]
      simp [List.replicate_succ]

/-- The result of the displacement loop extends the row with empty markers
only. -/
theorem fillBlocked_append (t : RowSpanTracker) (cc : Nat) (row : List (Option T)) :
    ∃ k, fillBlocked t cc row = row ++ List.replicate k (none : Option T) :=
  fillBlockedGo_append t cc _ row

/-- With enough fuel, the displacement loop stops at a fitting column and
every skipped column did not fit. -/
theorem fillBlockedGo_spec (t : RowSpanTracker) (cc : Nat) :
    ∀ (fuel : Nat) (row : List (Option T)), t.maxKey + 1 - row.length ≤ fuel →
      cell_fits (fillBlockedGo t cc fuel row).length cc t = true
      ∧ (∀ c, row.length ≤ c → c < (fillBlockedGo t cc fuel row).length →
          cell_fits c cc t = false) := by
  intro fuel
  induction fuel with
  | zero =>
    intro row hb
    have hfit : cell_fits row.length cc t = true := cell_fits_of_maxKey_lt (by omega)
    exact ⟨hfit, fun c hc hc' => absurd hc' (by simp [fillBlockedGo]; omega)⟩
  | succ fuel ih =>
    intro row hb
    by_cases hfit : cell_fits row.length cc t
    · simp only [fillBlockedGo, if_pos hfit]
      exact ⟨hfit, fun c hc hc' => absurd hc' (by omega)⟩
    · have hfit' : cell_fits row.length cc t = false := by
        cases hx : cell_fits row.length cc t with
        | false => rfl
        | true => exact absurd hx hfit
      have hle : row.length ≤ t.maxKey := le_maxKey_of_not_cell_fits hfit'
      have hb' : t.maxKey + 1 - (row ++ [none]).length ≤ fuel := by
        simp only [List.length_append, List.length_cons, List.length_nil]
        omega
      obtain ⟨h2, h3⟩ := ih (row ++ [none]) hb'
      simp only [fillBlockedGo, if_neg hfit]
      refine ⟨h2, fun c hc hc' => ?_⟩
      rcases Nat.eq_or_lt_of_le hc with hc | hc
      · rwa [hc] at hfit'
      · exact h3 c (by simp only [List.length_append, List.length_cons,
          List.length_nil]; omega) hc'

theorem fillBlocked_fits (t : RowSpanTracker) (cc : Nat) (row : List (Option T)) :
    cell_fits (fillBlocked t cc row).length cc t = true :=
  (fillBlockedGo_spec t cc _ row le_rfl).1

theorem fillBlocked_minimal (t : RowSpanTracker) (cc : Nat) (row : List (Option T)) :
    ∀ c, row.length ≤ c → c < (fillBlocked t cc row).length → cell_fits c cc t = false :=
  (fillBlockedGo_spec t cc _ row le_rfl).2

theorem fillBlocked_le_length (t : RowSpanTracker) (cc : Nat) (row : List (Option T)) :
    row.length ≤ (fillBlocked t cc row).length := by
  obtain ⟨k, hk⟩ := fillBlocked_append t cc row
  simp [hk]

/-- The columns the displacement loop skips are written as empty markers. -/
theorem fillBlocked_skipped_none (t : RowSpanTracker) (cc : Nat) (row : List (Option T)) :
    ∀ c, row.length ≤ c → c < (fillBlocked t cc row).length →
      (fillBlocked t cc row)[c]? = some none := by
  intro c hc hc'
  obtain ⟨k, hk⟩ := fillBlocked_append t cc row
  rw [hk] at hc' ⊢
  rw [List.getElem?_append_right hc]
  have hck : c - row.length < k := by
    simp only [List.length_append, List.length_replicate] at hc'
    omega
  simp [List.getElem?_replicate, hck]

/-- Shape of the tail loop's row buffer: `k` further empty markers. -/
theorem spanTail_snd (n : Nat) :
    ∀ (k : Nat) (t : RowSpanTracker) (row : List (Option T)),
      (spanTail n k t row).2 = row ++ List.replicate k (none : Option T) := by
  intro k
  induction k with
  | zero => intro t row; simp [spanTail]
  | succ k ih =>
    intro t row
    show (spanTail n k _ (row ++ [none])).2 = _
    rw [ih, List.append_assoc]
    simp [List.replicate_succ]

/-- Shape of one processed anchor: the displaced row, the anchor, and
`cols - 1` empty markers. -/
theorem layoutCell_snd (spaninfo : T → Option Span)
    (acc : RowSpanTracker × List (Option T)) (cell : T) :
    (layoutCell spaninfo acc cell).2 =
      fillBlocked acc.1 ((spaninfo cell).getD Span.default).cols acc.2
        ++ [some cell]
        ++ List.replicate (((spaninfo cell).getD Span.default).cols - 1)
            (none : Option T) := by
  unfold layoutCell
  rw [spanTail_snd, List.append_assoc]

end Engine

namespace RowSpanTracker

theorem weight_cons (p : Nat × Nat) (rest : RowSpanTracker) :
    weight (p :: rest) = p.2 + 1 + weight rest := rfl

theorem dec_cons (p : Nat × Nat) (rest : RowSpanTracker) :
    dec (p :: rest) =
      if 1 < p.2 then (p.1, p.2 - 1) :: dec rest else dec rest := by
  unfold dec
  rw [List.filterMap_cons]
  by_cases hp : 1 < p.2
  · simp [hp]
  · simp [hp]

theorem weight_dec_le : ∀ t : RowSpanTracker, weight (dec t) ≤ weight t := by
  intro t
  induction t with
  | nil => simp [dec, weight]
  | cons p rest ih =>
    rw [dec_cons]
    by_cases hp : 1 < p.2
    · rw [if_pos hp, weight_cons, weight_cons]
      have : weight ((p.1, p.2 - 1) :: dec rest) = p.2 - 1 + 1 + weight (dec rest) :=
        weight_cons _ _
      omega
    · rw [if_neg hp, weight_cons]
      omega

theorem weight_dec_lt (p : Nat × Nat) (rest : RowSpanTracker) :
    weight (dec (p :: rest)) < weight (p :: rest) := by
  rw [dec_cons, weight_cons]
  have := weight_dec_le rest
  by_cases hp : 1 < p.2
  · rw [if_pos hp, weight_cons]
    omega
  · rw [if_neg hp]
    omega

theorem weight_eq_zero_iff (t : RowSpanTracker) : weight t = 0 ↔ t = [] := by
  cases t with
  | nil => simp [weight]
  | cons p rest =>
    rw [weight_cons]
    constructor
    · intro h; omega
    · intro h; exact absurd h (by simp)

theorem max_spanned_eq_none_iff (t : RowSpanTracker) : max_spanned t = none ↔ t = [] := by
  cases t with
  | nil => simp [max_spanned]
  | cons p rest =>
    constructor
    · intro h
      exfalso
      unfold max_spanned at h
      rw [List.foldr_cons] at h
      revert h
      cases List.foldr (fun p acc => match acc with
        | none => some p.1
        | some m => some (max p.1 m)) none rest with
      | none => intro h; simp at h
      | some m => intro h; simp at h
    · intro h; exact absurd h (by simp)

end RowSpanTracker

namespace Engine

variable {T : Type}

theorem trailingGo_congr :
    ∀ (f₁ f₂ : Nat) (t : RowSpanTracker), t.weight ≤ f₁ → t.weight ≤ f₂ →
      trailingGo (T := T) f₁ t = trailingGo f₂ t := by
  intro f₁
  induction f₁ with
  | zero =>
    intro f₂ t h1 _
    have ht : t = [] := (RowSpanTracker.weight_eq_zero_iff t).mp (by omega)
    subst ht
    cases f₂ with
    | zero => rfl
    | succ f₂ => simp [trailingGo, RowSpanTracker.max_spanned]
  | succ f₁ ih =>
    intro f₂ t h1 h2
    cases hm : t.max_spanned with
    | none =>
      have ht : t = [] := (RowSpanTracker.max_spanned_eq_none_iff t).mp hm
      subst ht
      cases f₂ with
      | zero => rfl
      | succ f₂ => simp [trailingGo, RowSpanTracker.max_spanned]
    | some col =>
      have ht : t ≠ [] := by
        intro h
        rw [h] at hm
        simp [RowSpanTracker.max_spanned] at hm
      obtain ⟨p, rest, hpr⟩ : ∃ p rest, t = p :: rest := by
        cases t with
        | nil => exact absurd rfl ht
        | cons p rest => exact ⟨p, rest, rfl⟩
      have hdec : t.dec.weight < t.weight := by
        rw [hpr]; exact RowSpanTracker.weight_dec_lt p rest
      cases f₂ with
      | zero =>
        have : t = [] := (RowSpanTracker.weight_eq_zero_iff t).mp (by omega)
        exact absurd this ht
      | succ f₂ =>
        show (match t.max_spanned with
          | none => []
          | some col => List.replicate (col + 1) (none : Option T) :: trailingGo f₁ t.dec) = _
        rw [hm]
        show _ = (match t.max_spanned with
          | none => []
          | some col => List.replicate (col + 1) (none : Option T) :: trailingGo f₂ t.dec)
        rw [hm]
        rw [ih f₂ t.dec (by omega) (by omega)]

/-- The defining `while`-step equation of the trailing-row loop. -/
theorem trailing_unfold (t : RowSpanTracker) :
    trailing (T := T) t =
      match t.max_spanned with
      | none => []
      | some col => List.replicate (col + 1) (none : Option T) :: trailing t.dec := by
  cases hm : t.max_spanned with
  | none =>
    have ht : t = [] := (RowSpanTracker.max_spanned_eq_none_iff t).mp hm
    subst ht
    rfl
  | some col =>
    have ht : t ≠ [] := by
      intro h
      rw [h] at hm
      simp [RowSpanTracker.max_spanned] at hm
    obtain ⟨p, rest, hpr⟩ : ∃ p rest, t = p :: rest := by
      cases t with
      | nil => exact absurd rfl ht
      | cons p rest => exact ⟨p, rest, rfl⟩
    have hw : 1 ≤ t.weight := by
      rcases Nat.eq_zero_or_pos t.weight with h | h
      · exact absurd ((RowSpanTracker.weight_eq_zero_iff t).mp h) ht
      · exact h
    have hdec : t.dec.weight < t.weight := by
      rw [hpr]; exact RowSpanTracker.weight_dec_lt p rest
    obtain ⟨w, hwe⟩ : ∃ w, t.weight = w + 1 := ⟨t.weight - 1, by omega⟩
    unfold trailing
    rw [hwe]
    show (match t.max_spanned with
      | none => []
      | some col => List.replicate (col + 1) (none : Option T) :: trailingGo w t.dec) = _
    rw [hm]
    rw [trailingGo_congr w t.dec.weight t.dec (by omega) le_rfl]

/-- Every trailing row consists of empty markers only. -/
theorem trailingGo_mem_replicate :
    ∀ (fuel : Nat) (t : RowSpanTracker) (r : List (Option T)),
      r ∈ trailingGo fuel t → ∃ m, r = List.replicate m (none : Option T) := by
  intro fuel
  induction fuel with
  | zero => intro t r h; simp [trailingGo] at h
  | succ fuel ih =>
    intro t r h
    revert h
    show r ∈ (match t.max_spanned with
      | none => []
      | some col => List.replicate (col + 1) (none : Option T) :: trailingGo fuel t.dec) → _
    cases t.max_spanned with
    | none => intro h; simp at h
    | some col =>
      intro h
      rcases List.mem_cons.mp h with h | h
      · exact ⟨col + 1, h⟩
      · exact ih t.dec r h

end Engine

namespace LibEngine

variable {T : Type}

theorem fillSpannedGo_append (t : RowSpanTracker) :
    ∀ (fuel : Nat) (row : List (Option T)),
      ∃ k, fillSpannedGo t fuel row = row ++ List.replicate k (none : Option T) := by
  intro fuel
  induction fuel with
  | zero => exact fun row => ⟨0, by simp [fillSpannedGo]⟩
  | succ fuel ih =>
    intro row
    by_cases hsp : t.spanned row.length
    · obtain ⟨k, hk⟩ := ih (row ++ [none])
      refine ⟨k + 1, ?_⟩
      simp only [fillSpannedGo, hsp, if_pos]
      rw [hk, List.append_assoc]
      simp [List.replicate_succ]
    · exact ⟨0, by simp [fillSpannedGo, hsp]⟩

theorem fillSpanned_append (t : RowSpanTracker) (row : List (Option T)) :
    ∃ k, fillSpanned t row = row ++ List.replicate k (none : Option T) :=
  fillSpannedGo_append t _ row

/-- Shape of one processed anchor in the `lib.rs` engine. -/
theorem lib_layoutCell_snd (spaninfo : T → Option Span)
    (acc : RowSpanTracker × List (Option T)) (cell : T) :
    (layoutCell spaninfo acc cell).2 =
      fillSpanned acc.1 acc.2 ++ [some cell]
        ++ List.replicate (((spaninfo cell).getD Span.default).cols - 1)
            (none : Option T) := by
  unfold layoutCell
  rw [Engine.spanTail_snd, List.append_assoc]

end LibEngine

/-! ## Tracker invariants -/

namespace RowSpanTracker

theorem pos_new : Pos new := by
  intro p hp
  simp [new] at hp

theorem pos_track {t : RowSpanTracker} {c n : Nat} (h : Pos t) : Pos (track t c n) := by
  unfold track
  by_cases hn : 1 < n
  · rw [if_pos hn]
    intro p hp
    rcases List.mem_cons.mp hp with hp | hp
    · rw [hp]; omega
    · exact h p (List.mem_of_mem_filter hp)
  · rw [if_neg hn]; exact h

theorem pos_dec {t : RowSpanTracker} (_ : Pos t) : Pos (dec t) := by
  intro p hp
  obtain ⟨q, hq, hfq⟩ := List.mem_filterMap.mp hp
  by_cases h1 : 1 < q.2
  · rw [if_pos h1] at hfq
    cases hfq
    omega
  · rw [if_neg h1] at hfq
    cases hfq

theorem bounded_track {t : RowSpanTracker} {c n r : Nat}
    (h : Bounded t r) (hn : n ≤ r) : Bounded (track t c n) r := by
  unfold track
  by_cases h1 : 1 < n
  · rw [if_pos h1]
    intro p hp
    rcases List.mem_cons.mp hp with hp | hp
    · rw [hp]; exact hn
    · exact h p (List.mem_of_mem_filter hp)
  · rw [if_neg h1]; exact h

theorem bounded_dec {t : RowSpanTracker} {r : Nat}
    (h : Bounded t r) : Bounded (dec t) (r - 1) := by
  intro p hp
  obtain ⟨q, hq, hfq⟩ := List.mem_filterMap.mp hp
  by_cases h1 : 1 < q.2
  · rw [if_pos h1] at hfq
    cases hfq
    have := h q hq
    omega
  · rw [if_neg h1] at hfq
    cases hfq

theorem eq_nil_of_bounded_zero {t : RowSpanTracker}
    (hb : Bounded t 0) (hp : Pos t) : t = [] := by
  cases t with
  | nil => rfl
  | cons q rest =>
    have h1 := hb q (List.mem_cons_self q rest)
    have h2 := hp q (List.mem_cons_self q rest)
    omega

theorem reachable_pos {t : RowSpanTracker} (h : Reachable t) : Pos t := by
  induction h with
  | new => exact pos_new
  | track t c n _ ih => exact pos_track ih
  | dec t _ ih => exact pos_dec ih

/-! Lemmas on a column not bound in the tracker. -/

theorem noc_filter (t : RowSpanTracker) (c : Nat) :
    ∀ p ∈ t.filter (fun p => decide (p.1 ≠ c)), p.1 ≠ c := by
  intro p hp
  have := (List.mem_filter.mp hp).2
  simpa using this

theorem noc_dec {t : RowSpanTracker} {c : Nat}
    (h : ∀ p ∈ t, p.1 ≠ c) : ∀ p ∈ dec t, p.1 ≠ c := by
  intro p hp
  obtain ⟨q, hq, hfq⟩ := List.mem_filterMap.mp hp
  by_cases h1 : 1 < q.2
  · rw [if_pos h1] at hfq
    cases hfq
    exact h q hq
  · rw [if_neg h1] at hfq
    cases hfq

theorem lookup_eq_none_of_noc {t : RowSpanTracker} {c : Nat}
    (h : ∀ p ∈ t, p.1 ≠ c) : t.lookup c = none := by
  induction t with
  | nil => rfl
  | cons q rest ih =>
    rw [List.lookup_cons]
    have hq : q.1 ≠ c := h q (List.mem_cons_self q rest)
    have hb : (c == q.1) = false := beq_eq_false_iff_ne.mpr (fun hc => hq hc.symm)
    simp only [hb]
    exact ih (fun p hp => h p (List.mem_cons_of_mem q hp))

theorem spanned_eq_false_of_noc {t : RowSpanTracker} {c : Nat}
    (h : ∀ p ∈ t, p.1 ≠ c) : spanned t c = false := by
  unfold spanned
  rw [lookup_eq_none_of_noc h]
  rfl

theorem noc_dec_iterate {t : RowSpanTracker} {c : Nat}
    (h : ∀ p ∈ t, p.1 ≠ c) : ∀ k, ∀ p ∈ dec^[k] t, p.1 ≠ c := by
  intro k
  induction k generalizing t with
  | zero => simpa using h
  | succ k ih =>
    rw [Function.iterate_succ_apply]
    exact ih (noc_dec h)

/-- Behaviour of a single tracked column under iterated `dec`: the column
stays blocked for exactly `n - 1` further `dec` calls. -/
theorem spanned_iterate_dec {c : Nat} :
    ∀ (k n : Nat) (t : RowSpanTracker), (∀ p ∈ t, p.1 ≠ c) → 1 ≤ n →
      spanned (dec^[k] ((c, n) :: t)) c = decide (k < n) := by
  intro k
  induction k with
  | zero =>
    intro n t _ hn
    have : spanned ((c, n) :: t) c = true := by
      unfold spanned
      rw [List.lookup_cons]
      simp only [beq_self_eq_true]
      simp
      omega
    rw [Function.iterate_zero_apply, this]
    have : decide (0 < n) = true := by simp; omega
    rw [this]
  | succ k ih =>
    intro n t hnoc hn
    rw [Function.iterate_succ_apply, dec_cons]
    by_cases h1 : 1 < n
    · rw [if_pos h1]
      rw [ih (n - 1) (dec t) (noc_dec hnoc) (by omega)]
      rw [decide_eq_decide]
      omega
    · rw [if_neg h1]
      have hz : spanned (dec^[k] (dec t)) c = false :=
        spanned_eq_false_of_noc (noc_dec_iterate (noc_dec hnoc) k)
      rw [hz]
      have : decide (k + 1 < n) = false := by simp; omega
      rw [this]

theorem track_eq_of_le {t : RowSpanTracker} {c n : Nat} (h : n ≤ 1) :
    track t c n = t := by
  unfold track
  rw [if_neg (by omega)]

end RowSpanTracker

/-! ## Present-cell bookkeeping -/

theorem filterMap_id_replicate_none {T : Type} (k : Nat) :
    (List.replicate k (none : Option T)).filterMap id = [] := by
  induction k with
  | zero => rfl
  | succ k ih => rw [List.replicate_succ, List.filterMap_cons]; simp [ih]

theorem filterMap_id_flatten {T : Type} :
    ∀ L : List (List (Option T)),
      L.flatten.filterMap id = (L.map (fun r => r.filterMap id)).flatten := by
  intro L
  induction L with
  | nil => rfl
  | cons r rs ih => simp [List.filterMap_append, ih]

namespace Engine

variable {T : Type}

/-- Each processed anchor contributes exactly itself to the present cells. -/
theorem foldl_layoutCell_filterMap (spaninfo : T → Option Span) :
    ∀ (cells : List T) (acc : RowSpanTracker × List (Option T)),
      ((cells.foldl (layoutCell spaninfo) acc).2).filterMap id
        = acc.2.filterMap id ++ cells := by
  intro cells
  induction cells with
  | nil => intro acc; simp
  | cons c cs ih =>
    intro acc
    rw [List.foldl_cons, ih]
    obtain ⟨k, hk⟩ := fillBlocked_append acc.1 ((spaninfo c).getD Span.default).cols acc.2
    rw [layoutCell_snd, hk]
    simp [List.filterMap_append, filterMap_id_replicate_none]

theorem layoutRow_filterMap (spaninfo : T → Option Span) (t : RowSpanTracker)
    (inrow : List T) :
    ((layoutRow spaninfo t inrow).2).filterMap id = inrow := by
  unfold layoutRow
  rw [foldl_layoutCell_filterMap]
  simp

theorem layoutRows_map_filterMap (spaninfo : T → Option Span) :
    ∀ (data : List (List T)) (t : RowSpanTracker),
      ((layoutRows spaninfo t data).2).map (fun r => r.filterMap id) = data := by
  intro data
  induction data with
  | nil => intro t; rfl
  | cons inrow rest ih =>
    intro t
    show ((layoutRow spaninfo t inrow).2 :: _).map _ = _
    rw [List.map_cons, layoutRow_filterMap, ih]

theorem trailing_filterMap (t : RowSpanTracker) :
    ∀ r ∈ trailing (T := T) t, r.filterMap id = [] := by
  intro r hr
  obtain ⟨m, hm⟩ := trailingGo_mem_replicate _ t r hr
  rw [hm, filterMap_id_replicate_none]

theorem spanTail_fst_pos (n : Nat) :
    ∀ (k : Nat) (t : RowSpanTracker) (row : List (Option T)),
      RowSpanTracker.Pos t → RowSpanTracker.Pos (spanTail n k t row).1 := by
  intro k
  induction k with
  | zero => intro t row h; exact h
  | succ k ih =>
    intro t row h
    exact ih _ _ (RowSpanTracker.pos_track h)

theorem spanTail_fst_bounded {n r : Nat} (hn : n ≤ r) :
    ∀ (k : Nat) (t : RowSpanTracker) (row : List (Option T)),
      RowSpanTracker.Bounded t r → RowSpanTracker.Bounded (spanTail n k t row).1 r := by
  intro k
  induction k with
  | zero => intro t row h; exact h
  | succ k ih =>
    intro t row h
    exact ih _ _ (RowSpanTracker.bounded_track h hn)

theorem layoutCell_fst_pos (spaninfo : T → Option Span)
    (acc : RowSpanTracker × List (Option T)) (cell : T)
    (h : RowSpanTracker.Pos acc.1) :
    RowSpanTracker.Pos (layoutCell spaninfo acc cell).1 :=
  spanTail_fst_pos _ _ _ _ (RowSpanTracker.pos_track h)

theorem layoutCell_fst_bounded {r : Nat} (spaninfo : T → Option Span)
    (acc : RowSpanTracker × List (Option T)) (cell : T)
    (hrows : ((spaninfo cell).getD Span.default).rows ≤ r)
    (h : RowSpanTracker.Bounded acc.1 r) :
    RowSpanTracker.Bounded (layoutCell spaninfo acc cell).1 r :=
  spanTail_fst_bounded hrows _ _ _ (RowSpanTracker.bounded_track h hrows)

theorem foldl_layoutCell_fst_pos (spaninfo : T → Option Span) :
    ∀ (cells : List T) (acc : RowSpanTracker × List (Option T)),
      RowSpanTracker.Pos acc.1 →
      RowSpanTracker.Pos ((cells.foldl (layoutCell spaninfo) acc).1) := by
  intro cells
  induction cells with
  | nil => intro acc h; exact h
  | cons c cs ih =>
    intro acc h
    exact ih _ (layoutCell_fst_pos spaninfo acc c h)

theorem foldl_layoutCell_fst_bounded {r : Nat} (spaninfo : T → Option Span) :
    ∀ (cells : List T) (acc : RowSpanTracker × List (Option T)),
      (∀ cell ∈ cells, ((spaninfo cell).getD Span.default).rows ≤ r) →
      RowSpanTracker.Bounded acc.1 r →
      RowSpanTracker.Bounded ((cells.foldl (layoutCell spaninfo) acc).1) r := by
  intro cells
  induction cells with
  | nil => intro acc _ h; exact h
  | cons c cs ih =>
    intro acc hc h
    exact ih _ (fun cell hm => hc cell (List.mem_cons_of_mem c hm))
      (layoutCell_fst_bounded spaninfo acc c (hc c (List.mem_cons_self c cs)) h)

/-- If no anchor's rowspan extends past the last input row, the tracker is
empty once every input row (and its trailing `dec`) has been processed. -/
theorem layoutRows_fst_eq_nil (spaninfo : T → Option Span) :
    ∀ (data : List (List T)) (t : RowSpanTracker),
      RowSpanTracker.Pos t → RowSpanTracker.Bounded t data.length →
      (∀ i, i < data.length → ∀ cell ∈ data.getD i [],
        ((spaninfo cell).getD Span.default).rows ≤ data.length - i) →
      (layoutRows spaninfo t data).1 = [] := by
  intro data
  induction data with
  | nil =>
    intro t hp hb _
    exact RowSpanTracker.eq_nil_of_bounded_zero hb hp
  | cons inrow rest ih =>
    intro t hp hb h
    show (layoutRows spaninfo
      (RowSpanTracker.dec (layoutRow spaninfo t inrow).1) rest).1 = []
    have hrow : ∀ cell ∈ inrow,
        ((spaninfo cell).getD Span.default).rows ≤ rest.length + 1 := by
      intro cell hc
      have := h 0 (by simp) cell (by simpa using hc)
      simpa using this
    have hb1 : RowSpanTracker.Bounded (layoutRow spaninfo t inrow).1
        (rest.length + 1) :=
      foldl_layoutCell_fst_bounded spaninfo inrow (t, []) hrow
        (by simpa using hb)
    have hp1 : RowSpanTracker.Pos (layoutRow spaninfo t inrow).1 :=
      foldl_layoutCell_fst_pos spaninfo inrow (t, []) hp
    refine ih _ (RowSpanTracker.pos_dec hp1) ?_ ?_
    · have := RowSpanTracker.bounded_dec hb1
      simpa using this
    · intro i hi cell hc
      have := h (i + 1) (by simpa using hi) cell (by simpa using hc)
      have harith : inrow :: rest = inrow :: rest := rfl
      simp only [List.length_cons] at this
      have : ((spaninfo cell).getD Span.default).rows ≤ rest.length + 1 - (i + 1) :=
        this
      omega

/-! ### Identity behaviour on unspanned inputs -/

theorem cell_fits_new (col cc : Nat) :
    cell_fits col cc RowSpanTracker.new = true := by
  unfold cell_fits
  rw [List.all_eq_true]
  intro peek _
  rfl

theorem fillBlocked_new (cc : Nat) (row : List (Option T)) :
    fillBlocked RowSpanTracker.new cc row = row := by
  rw [fillBlocked_unfold, if_pos (cell_fits_new row.length cc)]

theorem layoutCell_identity (spaninfo : T → Option Span)
    (row : List (Option T)) (cell : T)
    (h : (spaninfo cell).getD Span.default = { rows := 1, cols := 1 }) :
    layoutCell spaninfo (RowSpanTracker.new, row) cell
      = (RowSpanTracker.new, row ++ [some cell]) := by
  unfold layoutCell
  rw [h]
  show spanTail 1 0 (RowSpanTracker.track RowSpanTracker.new
    (fillBlocked RowSpanTracker.new 1 row).length 1) _ = _
  rw [RowSpanTracker.track_eq_of_le le_rfl, fillBlocked_new]
  rfl

theorem foldl_layoutCell_identity (spaninfo : T → Option Span) :
    ∀ (cells : List T) (row : List (Option T)),
      (∀ cell ∈ cells, (spaninfo cell).getD Span.default = { rows := 1, cols := 1 }) →
      cells.foldl (layoutCell spaninfo) (RowSpanTracker.new, row)
        = (RowSpanTracker.new, row ++ cells.map some) := by
  intro cells
  induction cells with
  | nil => intro row _; simp
  | cons c cs ih =>
    intro row h
    rw [List.foldl_cons,
      layoutCell_identity spaninfo row c (h c (List.mem_cons_self c cs)),
      ih _ (fun cell hm => h cell (List.mem_cons_of_mem c hm))]
    simp

theorem layoutRows_identity (spaninfo : T → Option Span) :
    ∀ (data : List (List T)),
      (∀ row ∈ data, ∀ cell ∈ row,
        (spaninfo cell).getD Span.default = { rows := 1, cols := 1 }) →
      layoutRows spaninfo RowSpanTracker.new data
        = (RowSpanTracker.new, data.map (fun r => r.map some)) := by
  intro data
  induction data with
  | nil => intro _; rfl
  | cons inrow rest ih =>
    intro h
    show ((layoutRows spaninfo (RowSpanTracker.dec (layoutRow spaninfo
        RowSpanTracker.new inrow).1) rest).1,
      (layoutRow spaninfo RowSpanTracker.new inrow).2 ::
        (layoutRows spaninfo (RowSpanTracker.dec (layoutRow spaninfo
          RowSpanTracker.new inrow).1) rest).2) = _
    have hrow : layoutRow spaninfo RowSpanTracker.new inrow
        = (RowSpanTracker.new, inrow.map some) := by
      unfold layoutRow
      rw [foldl_layoutCell_identity spaninfo inrow []
        (h inrow (List.mem_cons_self inrow rest))]
      rfl
    rw [hrow]
    have hdec : RowSpanTracker.dec RowSpanTracker.new = RowSpanTracker.new := rfl
    rw [hdec, ih (fun row hr => h row (List.mem_cons_of_mem inrow hr))]
    simp

theorem trailing_new : trailing (T := T) RowSpanTracker.new = [] := rfl

/-- Row-major flattening of `engine.rs::layout_table` keeping only present
cells recovers the input anchors, in order. -/
theorem layout_table_filterMap (spaninfo : T → Option Span) (data : List (List T)) :
    ((layout_table spaninfo data).flatten).filterMap id = data.flatten := by
  unfold layout_table
  rw [List.flatten_append, List.filterMap_append, filterMap_id_flatten,
    layoutRows_map_filterMap]
  have htail :
      ((trailing (T := T) (layoutRows spaninfo RowSpanTracker.new data).1).flatten).filterMap id
        = [] := by
    rw [filterMap_id_flatten]
    refine List.flatten_eq_nil_iff.mpr ?_
    intro r hr
    obtain ⟨s, hs, hrs⟩ := List.mem_map.mp hr
    rw [← hrs, trailing_filterMap _ s hs]
  rw [htail, List.append_nil]

end Engine

namespace LibEngine

variable {T : Type}

theorem lib_foldl_layoutCell_filterMap (spaninfo : T → Option Span) :
    ∀ (cells : List T) (acc : RowSpanTracker × List (Option T)),
      ((cells.foldl (layoutCell spaninfo) acc).2).filterMap id
        = acc.2.filterMap id ++ cells := by
  intro cells
  induction cells with
  | nil => intro acc; simp
  | cons c cs ih =>
    intro acc
    rw [List.foldl_cons, ih]
    obtain ⟨k, hk⟩ := fillSpanned_append acc.1 acc.2
    rw [lib_layoutCell_snd, hk]
    simp [List.filterMap_append, filterMap_id_replicate_none]

theorem lib_layoutRow_filterMap (spaninfo : T → Option Span) (t : RowSpanTracker)
    (inrow : List T) :
    ((layoutRow spaninfo t inrow).2).filterMap id = inrow := by
  unfold layoutRow
  rw [lib_foldl_layoutCell_filterMap]
  simp

theorem lib_layoutRows_map_filterMap (spaninfo : T → Option Span) :
    ∀ (data : List (List T)) (t : RowSpanTracker),
      ((layoutRows spaninfo t data).2).map (fun r => r.filterMap id) = data := by
  intro data
  induction data with
  | nil => intro t; rfl
  | cons inrow rest ih =>
    intro t
    show ((layoutRow spaninfo t inrow).2 :: _).map _ = _
    rw [List.map_cons, lib_layoutRow_filterMap, ih]

/-- Row-major flattening of `lib.rs::engine::layout_table` keeping only
present cells recovers the input anchors, in order. -/
theorem lib_layout_table_filterMap (spaninfo : T → Option Span) (data : List (List T)) :
    ((layout_table spaninfo data).flatten).filterMap id = data.flatten := by
  unfold layout_table
  rw [filterMap_id_flatten, lib_layoutRows_map_filterMap]

end LibEngine

/-! ## The claims -/

/-- C1: when `engine.rs::layout_table` places an anchor of colspan `w`, the
anchor lands at the smallest column `p` at or beyond the cursor such that
none of the `w` columns `p, …, p + w - 1` is blocked (`cell_fits`); every
skipped column `c` fails the whole span-width check and receives an empty
marker; in Scenario E the two-column anchor `G` is displaced to column 2,
past both positions whose two-column extent overlaps the column blocked by
`E`'s rowspan. -/
theorem claim1_anchor_displacement {T : Type} (spaninfo : T → Option Span)
    (t : RowSpanTracker) (row : List (Option T)) (cell : T) (w p : Nat)
    (hw : w = ((spaninfo cell).getD Span.default).cols)
    (hp : p = (Engine.fillBlocked t w row).length) :
    (row.length ≤ p
      ∧ Engine.cell_fits p w t = true
      ∧ (∀ c, row.length ≤ c → c < p → Engine.cell_fits c w t = false)
      ∧ (Engine.layoutCell spaninfo (t, row) cell).2[p]? = some (some cell)
      ∧ (∀ c, row.length ≤ c → c < p →
          (Engine.layoutCell spaninfo (t, row) cell).2[c]? = some none))
    ∧ Engine.layout_table spansE dataE =
        [[some "A", some "B", some "C"], [some "D", some "E", some "F"],
         [none, none, some "G", none, some "H", some "I"],
         [some "J", some "K", none, none, some "L"],
         [some "M", some "N", some "O"]] := by
  subst hw
  subst hp
  refine ⟨⟨Engine.fillBlocked_le_length _ _ _, Engine.fillBlocked_fits _ _ _,
    Engine.fillBlocked_minimal _ _ _, ?_, ?_⟩, rfl⟩
  · rw [Engine.layoutCell_snd]
    dsimp only
    rw [List.getElem?_append_left (by simp)]
    rw [List.getElem?_append_right le_rfl]
    simp
  · intro c hc hcp
    rw [Engine.layoutCell_snd]
    dsimp only
    rw [List.getElem?_append_left (by simp; omega)]
    rw [List.getElem?_append_left hcp]
    exact Engine.fillBlocked_skipped_none t _ row c hc hcp

/-- Witness for C1 at the decisive state of Scenario E: processing row 2,
the tracker still blocks column 1 from `E`'s rowspan, and the two-column
anchor `G` is placed at column 2, with columns 0 and 1 failing the fit check
and written as empty markers. -/
theorem claim1_witness :
    ([] : List (Option String)).length ≤ 2
    ∧ Engine.cell_fits 2 2 [(1, 1)] = true
    ∧ (∀ c, ([] : List (Option String)).length ≤ c → c < 2 →
        Engine.cell_fits c 2 [(1, 1)] = false)
    ∧ (Engine.layoutCell spansE (([(1, 1)] : RowSpanTracker),
        ([] : List (Option String))) "G").2[2]? = some (some "G")
    ∧ (∀ c, ([] : List (Option String)).length ≤ c → c < 2 →
        (Engine.layoutCell spansE (([(1, 1)] : RowSpanTracker),
          ([] : List (Option String))) "G").2[c]? = some none) :=
  (claim1_anchor_displacement spansE [(1, 1)] [] "G" 2 2 (by decide) (by decide)).1

/-- C2: the claim that the two `layout_table` implementations agree on every
scenario A–E is false in the code: they agree on A, B and C, but on
Scenario D the `lib.rs` engine emits no trailing rows, on Scenario E it
places the two-column anchor `G` over the blocked column instead of
displacing it, and it even contradicts the expected output hard-coded in its
own test `test_blocked_col_spans`. -/
theorem claim2_engines_diverge :
    Engine.layout_table spansA dataA = LibEngine.layout_table spansA dataA
    ∧ Engine.layout_table spansB dataB = LibEngine.layout_table spansB dataB
    ∧ Engine.layout_table spansC dataC = LibEngine.layout_table spansC dataC
    ∧ Engine.layout_table spansD dataD ≠ LibEngine.layout_table spansD dataD
    ∧ Engine.layout_table spansE dataE ≠ LibEngine.layout_table spansE dataE
    ∧ LibEngine.layout_table spansLibTest dataE ≠ expectedLibTest :=
  ⟨rfl, rfl, rfl, by decide, by decide, by decide⟩

/-- C3: `engine.rs::layout_table` appends its emitted rows with the trailing
loop: while `max_spanned` returns some column `c` a row of exactly `c + 1`
empty markers is appended and the tracker advanced; when no anchor's rowspan
extends past the input's row count the tracker is empty afterwards
(`max_spanned` is `none`) and no trailing row is appended; Scenario D yields
exactly the three rows of the spec. -/
theorem claim3_trailing_rows {T : Type} (spaninfo : T → Option Span)
    (data : List (List T)) :
    (∀ t : RowSpanTracker,
      Engine.trailing (T := T) t =
        match RowSpanTracker.max_spanned t with
        | none => []
        | some c => List.replicate (c + 1) (none : Option T) ::
            Engine.trailing (RowSpanTracker.dec t))
    ∧ (Engine.layout_table spaninfo data
        = (Engine.layoutRows spaninfo RowSpanTracker.new data).2
          ++ Engine.trailing (Engine.layoutRows spaninfo RowSpanTracker.new data).1)
    ∧ ((∀ i, i < data.length → ∀ cell ∈ data.getD i [],
          ((spaninfo cell).getD Span.default).rows ≤ data.length - i) →
        RowSpanTracker.max_spanned
            (Engine.layoutRows spaninfo RowSpanTracker.new data).1 = none
        ∧ Engine.layout_table spaninfo data
            = (Engine.layoutRows spaninfo RowSpanTracker.new data).2)
    ∧ Engine.layout_table spansD dataD =
        [[some "A", some "B", some "C"], [none, none, none], [none, none]] := by
  refine ⟨Engine.trailing_unfold, rfl, ?_, rfl⟩
  intro h
  have hnil := Engine.layoutRows_fst_eq_nil spaninfo data RowSpanTracker.new
    RowSpanTracker.pos_new (by intro p hp; simp [RowSpanTracker.new] at hp) h
  constructor
  · rw [hnil]
    rfl
  · show (Engine.layoutRows spaninfo RowSpanTracker.new data).2
        ++ Engine.trailing (Engine.layoutRows spaninfo RowSpanTracker.new data).1 = _
    rw [hnil]
    show _ ++ ([] : List (List (Option T))) = _
    exact List.append_nil _

/-- Witness for C3 on Scenario C, where every rowspan ends within the input:
the final tracker reports no blocked column and the output is exactly the
emitted rows. -/
theorem claim3_witness :
    RowSpanTracker.max_spanned
        (Engine.layoutRows spansC RowSpanTracker.new dataC).1 = none
    ∧ Engine.layout_table spansC dataC
        = (Engine.layoutRows spansC RowSpanTracker.new dataC).2 :=
  (claim3_trailing_rows spansC dataC).2.2.1 (by decide)

/-- C4 as stated is false in the code: the reachable state
`dec (track new 0 2)` holds the entry `(0, 1)` — a remaining row count of
exactly 1 is retained for one row and is observable, not pruned immediately. -/
theorem claim4_counterexample :
    ¬ (∀ t : RowSpanTracker, RowSpanTracker.Reachable t →
        ∀ c v, t.lookup c = some v → 1 < v) := by
  intro h
  have hr : RowSpanTracker.Reachable
      (RowSpanTracker.dec (RowSpanTracker.track RowSpanTracker.new 0 2)) :=
    RowSpanTracker.Reachable.dec _
      (RowSpanTracker.Reachable.track _ 0 2 RowSpanTracker.Reachable.new)
  have h1 := h _ hr 0 1 (by rfl)
  omega

/-- C4 amended: in every tracker state reachable from the empty tracker by
`track` and `dec`, every entry's remaining row count is at least 1 (an entry
whose count would drop to zero is removed by `dec`); counts equal to 1 do
occur. -/
theorem claim4_amended {t : RowSpanTracker} (h : RowSpanTracker.Reachable t) :
    (∀ p ∈ t, 1 ≤ p.2) ∧ (∀ c v, t.lookup c = some v → 1 ≤ v) := by
  have hp := RowSpanTracker.reachable_pos h
  exact ⟨hp, fun c v hl => hp _ (RowSpanTracker.lookup_some_mem hl)⟩

/-- Witness for the amended C4 at the reachable state `dec (track new 0 2)`,
whose single entry `(0, 1)` indeed has count at least 1. -/
theorem claim4_amended_witness :
    (∀ p ∈ RowSpanTracker.dec (RowSpanTracker.track RowSpanTracker.new 0 2), 1 ≤ p.2)
    ∧ (∀ c v, (RowSpanTracker.dec
        (RowSpanTracker.track RowSpanTracker.new 0 2)).lookup c = some v → 1 ≤ v) :=
  claim4_amended (RowSpanTracker.Reachable.dec _
    (RowSpanTracker.Reachable.track _ 0 2 RowSpanTracker.Reachable.new))

/-- C5: `track(col, n)` with `n ≤ 1` leaves the tracker unchanged; with
`n > 1` (and no later `track` of the column — the iterated `dec`s perform
none) the column reports blocked after `k` advances exactly for
`1 ≤ k ≤ n - 1`, and unblocked for every `k ≥ n`. -/
theorem claim5_track_blocking (t : RowSpanTracker) (c n : Nat) :
    (n ≤ 1 → RowSpanTracker.track t c n = t)
    ∧ (1 < n → ∀ k,
        (1 ≤ k → k ≤ n - 1 →
          RowSpanTracker.spanned
            (RowSpanTracker.dec^[k] (RowSpanTracker.track t c n)) c = true)
        ∧ (n ≤ k →
          RowSpanTracker.spanned
            (RowSpanTracker.dec^[k] (RowSpanTracker.track t c n)) c = false)) := by
  constructor
  · exact fun h => RowSpanTracker.track_eq_of_le h
  · intro hn k
    have htrack : RowSpanTracker.track t c n
        = (c, n) :: t.filter (fun p => decide (p.1 ≠ c)) := by
      unfold RowSpanTracker.track
      rw [if_pos hn]
    have hiter := RowSpanTracker.spanned_iterate_dec k n
      (t.filter (fun p => decide (p.1 ≠ c))) (RowSpanTracker.noc_filter t c)
      (by omega)
    constructor
    · intro h1 h2
      rw [htrack, hiter]
      simp only [decide_eq_true_eq]
      omega
    · intro h1
      rw [htrack, hiter]
      simp only [decide_eq_false_iff_not]
      omega

/-- Witness for C5: `track new 0 3` keeps column 0 blocked after 1 and 2
advances and unblocked after 3, while `track new 0 1` is a no-op. -/
theorem claim5_witness :
    RowSpanTracker.track RowSpanTracker.new 0 1 = RowSpanTracker.new
    ∧ RowSpanTracker.spanned
        (RowSpanTracker.dec^[2] (RowSpanTracker.track RowSpanTracker.new 0 3)) 0 = true
    ∧ RowSpanTracker.spanned
        (RowSpanTracker.dec^[3] (RowSpanTracker.track RowSpanTracker.new 0 3)) 0 = false :=
  ⟨(claim5_track_blocking RowSpanTracker.new 0 1).1 (by decide),
   ((claim5_track_blocking RowSpanTracker.new 0 3).2 (by decide) 2).1
     (by decide) (by decide),
   ((claim5_track_blocking RowSpanTracker.new 0 3).2 (by decide) 3).2 (by decide)⟩

/-- C6 as stated is false in the code: with span table `{"B":[2,1]}` and
input `[["A","B"],[]]`, column 1 is blocked by `B`'s rowspan while the second
(anchorless) input row is processed, yet that output row is empty — the row
does not cover the inherited blocked column. -/
theorem claim6_counterexample :
    ¬ (∀ c, RowSpanTracker.spanned
        (RowSpanTracker.dec
          (Engine.layoutRow spansRowless RowSpanTracker.new ["A", "B"]).1) c = true →
        c < ((Engine.layout_table spansRowless dataRowless).getD 1 []).length) := by
  intro h
  have h1 := h 1 (by decide)
  revert h1
  decide

/-- C6 amended: a placed anchor's output row extends exactly to the end of
the anchor's span — it covers, gap-free, every column of the anchor's
colspan and every blocked column skipped before it — but a row with no
anchors is emitted empty, and blocked columns beyond the row's last anchor
are not covered. -/
theorem claim6_amended {T : Type} (spaninfo : T → Option Span)
    (t : RowSpanTracker) (row : List (Option T)) (cell : T) (w : Nat)
    (hw : w = ((spaninfo cell).getD Span.default).cols) (hpos : 1 ≤ w) :
    ((Engine.layoutCell spaninfo (t, row) cell).2).length
        = (Engine.fillBlocked t w row).length + w
    ∧ (∀ c, c < (Engine.fillBlocked t w row).length + w →
        c < ((Engine.layoutCell spaninfo (t, row) cell).2).length)
    ∧ Engine.layoutRow spaninfo t ([] : List T) = (t, []) := by
  subst hw
  have hlen : ((Engine.layoutCell spaninfo (t, row) cell).2).length
      = (Engine.fillBlocked t ((spaninfo cell).getD Span.default).cols row).length
        + ((spaninfo cell).getD Span.default).cols := by
    rw [Engine.layoutCell_snd]
    dsimp only
    simp only [List.length_append, List.length_cons, List.length_nil,
      List.length_replicate]
    omega
  exact ⟨hlen, fun c hc => by rw [hlen]; exact hc, rfl⟩

/-- Witness for the amended C6 at the Scenario E state: `G` (colspan 2) is
placed after two skipped columns, and its output row has length exactly 4. -/
theorem claim6_amended_witness :
    ((Engine.layoutCell spansE (([(1, 1)] : RowSpanTracker),
        ([] : List (Option String))) "G").2).length
      = (Engine.fillBlocked ([(1, 1)] : RowSpanTracker) 2
          ([] : List (Option String))).length + 2
    ∧ (∀ c, c < (Engine.fillBlocked ([(1, 1)] : RowSpanTracker) 2
          ([] : List (Option String))).length + 2 →
        c < ((Engine.layoutCell spansE (([(1, 1)] : RowSpanTracker),
          ([] : List (Option String))) "G").2).length)
    ∧ Engine.layoutRow spansE ([(1, 1)] : RowSpanTracker) ([] : List String)
        = ([(1, 1)], []) :=
  claim6_amended spansE [(1, 1)] [] "G" 2 (by decide) (by decide)

/-- C7: `Span::new` fails with a configuration error whenever either
dimension is zero, regardless of the other dimension, and succeeds storing
exactly the given dimensions when both are at least 1; validation happens
only in this constructor (layout, a total function here, has no failure
path). -/
theorem claim7_span_construction (rows cols : Nat) :
    (Span.new 0 cols).isOk = false
    ∧ (Span.new rows 0).isOk = false
    ∧ (1 ≤ rows → 1 ≤ cols →
        Span.new rows cols = Except.ok { rows := rows, cols := cols }) := by
  refine ⟨rfl, ?_, ?_⟩
  · by_cases hr : rows = 0
    · subst hr
      rfl
    · simp only [Span.new, if_neg hr]
      rfl
  · intro h1 h2
    unfold Span.new
    rw [if_neg (by omega), if_neg (by omega)]

/-- Witness for C7 at concrete dimensions: zero in either position fails,
`(2, 3)` succeeds and stores `(2, 3)`. -/
theorem claim7_witness :
    (Span.new 0 3).isOk = false
    ∧ (Span.new 2 0).isOk = false
    ∧ Span.new 2 3 = Except.ok { rows := 2, cols := 3 } :=
  ⟨(claim7_span_construction 2 3).1, (claim7_span_construction 2 3).2.1,
   (claim7_span_construction 2 3).2.2 (by decide) (by decide)⟩

/-- C8: for every span table and every input, the number of present cells in
the output of `engine.rs::layout_table` equals the total number of anchors
in the input. -/
theorem claim8_present_count {T : Type} (spaninfo : T → Option Span)
    (data : List (List T)) :
    ((Engine.layout_table spaninfo data).map
      (fun r => (r.filterMap id).length)).sum
      = (data.map List.length).sum := by
  have h := Engine.layout_table_filterMap spaninfo data
  calc ((Engine.layout_table spaninfo data).map
        (fun r => (r.filterMap id).length)).sum
      = (((Engine.layout_table spaninfo data).map
          (fun r => r.filterMap id)).map List.length).sum := by
        rw [List.map_map]
        rfl
    _ = ((Engine.layout_table spaninfo data).map
          (fun r => r.filterMap id)).flatten.length :=
        (List.length_flatten _).symm
    _ = (((Engine.layout_table spaninfo data).flatten).filterMap id).length := by
        rw [← filterMap_id_flatten]
    _ = (data.flatten).length := by rw [h]
    _ = (data.map List.length).sum := List.length_flatten _

/-- C9: when every identifier occurring in the input is absent from the span
table or mapped to span (1,1), the output of `engine.rs::layout_table` is
the input with every cell wrapped as present — no empty markers, no extra
rows. -/
theorem claim9_identity {T : Type} (spaninfo : T → Option Span)
    (data : List (List T))
    (h : ∀ row ∈ data, ∀ cell ∈ row,
      (spaninfo cell).getD Span.default = { rows := 1, cols := 1 }) :
    Engine.layout_table spaninfo data = data.map (fun r => r.map some) := by
  show (Engine.layoutRows spaninfo RowSpanTracker.new data).2
      ++ Engine.trailing (Engine.layoutRows spaninfo RowSpanTracker.new data).1 = _
  rw [Engine.layoutRows_identity spaninfo data h]
  show data.map (fun r => r.map some) ++ Engine.trailing RowSpanTracker.new = _
  rw [Engine.trailing_new]
  exact List.append_nil _

/-- Witness for C9 on Scenario A, whose span table is empty: the layout is
the identity up to the Option wrapping. -/
theorem claim9_witness :
    Engine.layout_table spansA dataA = dataA.map (fun r => r.map some) :=
  claim9_identity spansA dataA (by decide)

/-- C10: for every span table and every input, reading either engine's
output in row-major order and keeping only the present cells yields exactly
the concatenation of the input rows — every anchor exactly once, in order. -/
theorem claim10_row_major_order {T : Type} (spaninfo : T → Option Span)
    (data : List (List T)) :
    ((Engine.layout_table spaninfo data).flatten).filterMap id = data.flatten
    ∧ ((LibEngine.layout_table spaninfo data).flatten).filterMap id = data.flatten :=
  ⟨Engine.layout_table_filterMap spaninfo data,
   LibEngine.lib_layout_table_filterMap spaninfo data⟩

end TableSpanner
